import Mathlib

/-!
Shallow embedding of the core of a small recursive raytracer (Rust), for
specification checking.  The Rust scalar type `f32` (`type Float = f32`)
is modelled by the real numbers; machine rounding is out of scope.
Every definition mirrors one function of the source tree
(`src/raytracer/{vector,material,sphere,mesh,light,raytracer}.rs` and
`src/raytracer/mod.rs`); surfaces (`&[impl Surface]`) are modelled by a
record holding the trait methods.
-/

open Classical

noncomputable section

namespace RT

/-- Vec3 from vector.rs: a 3-component real vector. -/
structure Vec3 where
  x : ℝ
  y : ℝ
  z : ℝ


namespace Vec3

/-- Vec3::zero. -/
def zero : Vec3 := ⟨0, 0, 0⟩

/-- Component-wise product (Vec3::hadamard). -/
def hadamard (a b : Vec3) : Vec3 := ⟨a.x * b.x, a.y * b.y, a.z * b.z⟩

/-- Vec3::dot. -/
def dot (a b : Vec3) : ℝ := a.x * b.x + a.y * b.y + a.z * b.z

/-- Vec3::cross. -/
def cross (a b : Vec3) : Vec3 :=
  ⟨a.y * b.z - a.z * b.y, a.z * b.x - a.x * b.z, a.x * b.y - a.y * b.x⟩

/-- Vec3::length_squared. -/
def length_squared (v : Vec3) : ℝ := v.dot v

/-- Vec3::length. -/
def length (v : Vec3) : ℝ := Real.sqrt v.length_squared

instance : Add Vec3 := ⟨fun a b => ⟨a.x + b.x, a.y + b.y, a.z + b.z⟩⟩

instance : Sub Vec3 := ⟨fun a b => ⟨a.x - b.x, a.y - b.y, a.z - b.z⟩⟩

instance : Neg Vec3 := ⟨fun a => ⟨-a.x, -a.y, -a.z⟩⟩

instance : HMul Vec3 ℝ Vec3 := ⟨fun a s => ⟨a.x * s, a.y * s, a.z * s⟩⟩

instance : HMul ℝ Vec3 Vec3 := ⟨fun s a => a * s⟩

instance : HDiv Vec3 ℝ Vec3 := ⟨fun a s => ⟨a.x / s, a.y / s, a.z / s⟩⟩

/-- Vec3::normalize: if the length is zero, return the vector unchanged. -/
def normalize (v : Vec3) : Vec3 :=
  let len := v.length
  if len = 0 then v else v / len

/-- Vec3::reflect: v - normal * 2 * (v . normal). -/
def reflect (v normal : Vec3) : Vec3 := v - normal * (2 * v.dot normal)

theorem add_def (a b : Vec3) : a + b = ⟨a.x + b.x, a.y + b.y, a.z + b.z⟩ := rfl

theorem sub_def (a b : Vec3) : a - b = ⟨a.x - b.x, a.y - b.y, a.z - b.z⟩ := rfl

theorem neg_def (a : Vec3) : -a = ⟨-a.x, -a.y, -a.z⟩ := rfl

theorem smul_def (a : Vec3) (s : ℝ) : a * s = ⟨a.x * s, a.y * s, a.z * s⟩ := rfl

theorem smul_left_def (s : ℝ) (a : Vec3) : s * a = a * s := rfl

theorem div_def (a : Vec3) (s : ℝ) : a / s = ⟨a.x / s, a.y / s, a.z / s⟩ := rfl

end Vec3

/-- Color from material.rs: RGB triple of (HDR, unbounded) reals. -/
structure Color where
  r : ℝ
  g : ℝ
  b : ℝ


namespace Color

/-- Color::black. -/
def black : Color := ⟨0, 0, 0⟩

/-- Color::white. -/
def white : Color := ⟨1, 1, 1⟩

instance : Add Color := ⟨fun a b => ⟨a.r + b.r, a.g + b.g, a.b + b.b⟩⟩

instance : Mul Color := ⟨fun a b => ⟨a.r * b.r, a.g * b.g, a.b * b.b⟩⟩

instance : HMul Color ℝ Color := ⟨fun a s => ⟨a.r * s, a.g * s, a.b * s⟩⟩

instance : HMul ℝ Color Color := ⟨fun s a => a * s⟩

theorem add_eq (a b : Color) : a + b = ⟨a.r + b.r, a.g + b.g, a.b + b.b⟩ := rfl

theorem mul_eq (a b : Color) : a * b = ⟨a.r * b.r, a.g * b.g, a.b * b.b⟩ := rfl

theorem smul_eq (a : Color) (s : ℝ) : a * s = ⟨a.r * s, a.g * s, a.b * s⟩ := rfl

end Color

/-- Material from material.rs. -/
structure Material where
  albedo : Color
  diffuse_rate : ℝ
  specular_rate : ℝ
  transmission_rate : ℝ
  refractive_index : ℝ
  absorption : Color


namespace Material

/-- Material::new: the three rate coefficients are clamped to [0,1]
(`rate.max(0.0).min(1.0)`); albedo, refractive index and absorption are
stored unchanged. -/
def new (albedo : Color) (diffuse_rate specular_rate transmission_rate : ℝ)
    (refractive_index : ℝ) (absorption : Color) : Material :=
  { albedo := albedo
    diffuse_rate := min (max diffuse_rate 0) 1
    specular_rate := min (max specular_rate 0) 1
    transmission_rate := min (max transmission_rate 0) 1
    refractive_index := refractive_index
    absorption := absorption }

end Material

/-- Ray from mod.rs: origin plus direction. -/
structure Ray where
  origin : Vec3
  direction : Vec3


namespace Ray

/-- Ray::new: the direction is normalized at construction. -/
def new (origin direction : Vec3) : Ray := ⟨origin, direction.normalize⟩

/-- Ray::at: origin + t * direction (named point_at here since `at` is a
Lean keyword). -/
def point_at (r : Ray) (t : ℝ) : Vec3 := r.origin + r.direction * t

end Ray

/-- Intersection from mod.rs. -/
structure Intersection where
  t : ℝ
  point : Vec3
  normal : Vec3
  material : Material


/-- BranchedRay from mod.rs. -/
structure BranchedRay where
  ray : Ray
  weight : ℝ
  passing_material : Material


/-- The Surface trait of mod.rs: an intersect method and a material method.
`&[impl Surface]` becomes `List Surf`. -/
structure Surf where
  intersect : Ray → Option Intersection
  material : Material

/-- Sphere from sphere.rs. -/
structure Sphere where
  center : Vec3
  radius : ℝ
  material : Material


namespace Sphere

/-- Sphere::normal_at. -/
def normal_at (s : Sphere) (point : Vec3) : Vec3 := (point - s.center).normalize

/-- Sphere::intersect: quadratic solve of |O + tD - C|^2 = r^2, taking the
smaller positive root, outward normal. -/
def intersect (s : Sphere) (ray : Ray) : Option Intersection :=
  let oc := ray.origin - s.center
  let d := ray.direction
  let a := d.dot d
  let b := 2 * oc.dot d
  let c := oc.dot oc - s.radius * s.radius
  let discriminant := b * b - 4 * a * c
  if discriminant < 0 then none
  else
    let sqrt_disc := Real.sqrt discriminant
    let t1 := (-b - sqrt_disc) / (2 * a)
    let t2 := (-b + sqrt_disc) / (2 * a)
    if 0 < t1 then some ⟨t1, ray.point_at t1, s.normal_at (ray.point_at t1), s.material⟩
    else if 0 < t2 then some ⟨t2, ray.point_at t2, s.normal_at (ray.point_at t2), s.material⟩
    else none

/-- View a sphere through the Surface trait. -/
def toSurf (s : Sphere) : Surf := ⟨s.intersect, s.material⟩

end Sphere

/-- Light from light.rs: a spherical emitter. -/
structure Light where
  center : Vec3
  radius : ℝ
  emission : Color

namespace Light

/-- Light::normal_at. -/
def normal_at (l : Light) (point : Vec3) : Vec3 := (point - l.center).normalize

/-- The dummy material attached to light intersections
(`Material::new(black, 0, 0, 0, 1, black)`). -/
def dummy_material : Material :=
  Material.new Color.black 0 0 0 1 Color.black

/-- Light::intersect: the same quadratic solve as Sphere::intersect, with a
dummy material on the returned intersection. -/
def intersect (l : Light) (ray : Ray) : Option Intersection :=
  let oc := ray.origin - l.center
  let d := ray.direction
  let a := d.dot d
  let b := 2 * oc.dot d
  let c := oc.dot oc - l.radius * l.radius
  let discriminant := b * b - 4 * a * c
  if discriminant < 0 then none
  else
    let sqrt_disc := Real.sqrt discriminant
    let t1 := (-b - sqrt_disc) / (2 * a)
    let t2 := (-b + sqrt_disc) / (2 * a)
    if 0 < t1 then some ⟨t1, ray.point_at t1, l.normal_at (ray.point_at t1), dummy_material⟩
    else if 0 < t2 then some ⟨t2, ray.point_at t2, l.normal_at (ray.point_at t2), dummy_material⟩
    else none

end Light

/-- Triangle from mesh.rs. -/
structure Triangle where
  v0 : Vec3
  v1 : Vec3
  v2 : Vec3
  material : Material

namespace Triangle

/-- Triangle::normal_unnormalized: cross product of the two edges. -/
def normal_unnormalized (tr : Triangle) : Vec3 :=
  let edge1 := tr.v1 - tr.v0
  let edge2 := tr.v2 - tr.v0
  edge1.cross edge2

/-- Triangle::normal. -/
def normal (tr : Triangle) : Vec3 := tr.normal_unnormalized.normalize

/-- The EPSILON constant of mesh.rs. -/
def meshEPSILON : ℝ := 1e-8

/-- Triangle::intersect: Moeller-Trumbore. -/
def intersect (tr : Triangle) (ray : Ray) : Option Intersection :=
  let edge1 := tr.v1 - tr.v0
  let edge2 := tr.v2 - tr.v0
  let ray_cross_edge2 := ray.direction.cross edge2
  let det := edge1.dot ray_cross_edge2
  if |det| < meshEPSILON then none
  else
    let inv_det := 1 / det
    let s := ray.origin - tr.v0
    let u := inv_det * s.dot ray_cross_edge2
    if u < 0 ∨ 1 < u then none
    else
      let s_cross_edge1 := s.cross edge1
      let v := inv_det * ray.direction.dot s_cross_edge1
      if v < 0 ∨ 1 < u + v then none
      else
        let t := inv_det * edge2.dot s_cross_edge1
        if 0 < t then some ⟨t, ray.point_at t, tr.normal, tr.material⟩
        else none

/-- View a triangle through the Surface trait. -/
def toSurf (tr : Triangle) : Surf := ⟨tr.intersect, tr.material⟩

end Triangle

/-- RayTracer from raytracer.rs: engine configuration. -/
structure RayTracer where
  background_color : Color
  max_depth : ℕ
  min_weight : ℝ
  vacuum_material : Material

/-- The loop body of RayTracer::find_closest_intersection: scan the surface
list keeping the closest hit with t > 1e-5.  The Rust code tracks
`closest_t = INFINITY` alongside `closest = None`; here the empty
accumulator plays the role of the infinite distance. -/
def findClosestLoop (ray : Ray) : List Surf → Option Intersection → Option Intersection
  | [], closest => closest
  | s :: rest, closest =>
    match s.intersect ray with
    | none => findClosestLoop ray rest closest
    | some i =>
      if 1e-5 < i.t ∧ closest.elim True (fun c => i.t < c.t) then
        findClosestLoop ray rest (some i)
      else
        findClosestLoop ray rest closest

/-- RayTracer::find_closest_intersection. -/
def RayTracer.find_closest_intersection (_rt : RayTracer) (ray : Ray)
    (surfaces : List Surf) : Option Intersection :=
  findClosestLoop ray surfaces none

/-- The closest-light loop of RayTracer::trace_ray_recursive: scan the lights
keeping the closest light intersection with t > 1e-5.  The Rust code stores
the light's index and re-indexes the slice; here the accumulated pair carries
the light value that the index denotes. -/
def closestLightLoop (ray : Ray) : List Light → Option (Intersection × Light) →
    Option (Intersection × Light)
  | [], acc => acc
  | light :: rest, acc =>
    match light.intersect ray with
    | none => closestLightLoop ray rest acc
    | some li =>
      if 1e-5 < li.t ∧ acc.elim True (fun p => li.t < p.1.t) then
        closestLightLoop ray rest (some (li, light))
      else
        closestLightLoop ray rest acc

/-- The OFFSET_EPS constant of raytracer.rs (used for shadow rays and
branched-ray origins). -/
def OFFSET_EPS : ℝ := 1e-4

/-- The shadow loop of RayTracer::compute_direct_light: the Rust `for` loop
returns black on the first surface that blocks the path to the light
(shadow hit with t < dist_to_light - 1e-5), and otherwise falls through to
the Lambertian product, passed here as `result`. -/
def directLightLoop (shadow_ray : Ray) (dist_to_light : ℝ) (result : Color) :
    List Surf → Color
  | [] => result
  | s :: rest =>
    match s.intersect shadow_ray with
    | some shadow_hit =>
      if shadow_hit.t < dist_to_light - 1e-5 then Color.black
      else directLightLoop shadow_ray dist_to_light result rest
    | none => directLightLoop shadow_ray dist_to_light result rest

/-- RayTracer::compute_direct_light: Lambertian direct lighting with a binary
shadow test. -/
def RayTracer.compute_direct_light (_rt : RayTracer) (intersection : Intersection)
    (light : Light) (material : Material) (surfaces : List Surf) : Color :=
  let to_light := (light.center - intersection.point).normalize
  let cos_theta := to_light.dot intersection.normal
  if cos_theta ≤ 0 then Color.black
  else
    let shadow_origin := intersection.point + to_light * OFFSET_EPS
    let shadow_ray := Ray.new shadow_origin to_light
    let dist_to_light := (light.center - intersection.point).length
    directLightLoop shadow_ray dist_to_light
      (material.albedo * light.emission * (cos_theta * material.diffuse_rate))
      surfaces

/-- RayTracer::branch_rays: diffuse, transmission (with total-internal-
reflection fallback folding the transmission weight into the specular
weight) and specular branches, pushed in that order.  The index `ratio` of
the Rust code is called `eta` here. -/
def RayTracer.branch_rays (rt : RayTracer) (ray : Ray) (intersection : Intersection)
    (incoming_material : Material) : List BranchedRay :=
  let surface_material := intersection.material
  let is_entering := ray.direction.dot intersection.normal < 0
  let normal := if is_entering then intersection.normal else -intersection.normal
  let diffuse_branches :=
    if 1e-5 < surface_material.diffuse_rate then
      [⟨Ray.new (intersection.point + normal * OFFSET_EPS) normal,
        surface_material.diffuse_rate, incoming_material⟩]
    else []
  let eta :=
    if is_entering then
      incoming_material.refractive_index / surface_material.refractive_index
    else
      surface_material.refractive_index / rt.vacuum_material.refractive_index
  let cos_i := -(ray.direction.dot normal)
  let sin_t_sq := eta * eta * (1 - cos_i * cos_i)
  let transmission_branches :=
    if 1e-5 < surface_material.transmission_rate ∧ ¬ (1 < sin_t_sq) then
      let cos_t := Real.sqrt (1 - sin_t_sq)
      let refracted := eta * ray.direction + normal * (eta * cos_i - cos_t)
      let next_material := if is_entering then surface_material else rt.vacuum_material
      [⟨Ray.new (intersection.point - normal * OFFSET_EPS) refracted,
        surface_material.transmission_rate, next_material⟩]
    else []
  let specular_weight :=
    if 1e-5 < surface_material.transmission_rate ∧ 1 < sin_t_sq then
      surface_material.specular_rate + surface_material.transmission_rate
    else surface_material.specular_rate
  let specular_branches :=
    if 1e-5 < specular_weight then
      [⟨Ray.new (intersection.point + normal * OFFSET_EPS)
          (ray.direction - normal * (2 * ray.direction.dot normal)),
        specular_weight, incoming_material⟩]
    else []
  diffuse_branches ++ transmission_branches ++ specular_branches

/-- RayTracer::trace_ray_recursive: depth/weight guard, closest surface and
light search, light-vs-surface race with Beer's-law attenuation, direct
lighting, ray branching and weighted recursive accumulation.  The Rust
early `return` on a light hit is modelled by the intermediate
`light_hit : Option Color`. -/
def RayTracer.trace_ray_recursive (rt : RayTracer) (surfaces : List Surf)
    (lights : List Light) (ray : Ray) (depth : ℕ) (current_weight : ℝ)
    (passing_material : Material) : Color :=
  if h : depth ≥ rt.max_depth ∨ current_weight < rt.min_weight then
    rt.background_color
  else
    let closest_intersection := rt.find_closest_intersection ray surfaces
    let closest_light := closestLightLoop ray lights none
    let light_hit : Option Color :=
      match closest_light with
      | none => none
      | some (light_intersection, light) =>
        if closest_intersection.elim True (fun i => light_intersection.t < i.t) then
          let distance := light_intersection.t
          let attenuation : Color :=
            ⟨Real.exp (-passing_material.absorption.r * distance),
             Real.exp (-passing_material.absorption.g * distance),
             Real.exp (-passing_material.absorption.b * distance)⟩
          some (light.emission * attenuation * current_weight)
        else none
    match light_hit with
    | some c => c
    | none =>
      match closest_intersection with
      | none => rt.background_color
      | some intersection =>
        let distance := intersection.t
        let attenuation : Color :=
          ⟨Real.exp (-passing_material.absorption.r * distance),
           Real.exp (-passing_material.absorption.g * distance),
           Real.exp (-passing_material.absorption.b * distance)⟩
        let material := intersection.material
        let direct_color := lights.foldl
          (fun acc light => acc + rt.compute_direct_light intersection light material surfaces)
          Color.black
        let branched_rays := rt.branch_rays ray intersection passing_material
        let indirect_color := branched_rays.foldl
          (fun acc branched =>
            acc + (material.albedo *
              rt.trace_ray_recursive surfaces lights branched.ray (depth + 1)
                (current_weight * branched.weight) branched.passing_material) *
              (branched.weight : ℝ))
          Color.black
        (direct_color + indirect_color) * attenuation
termination_by rt.max_depth - depth
decreasing_by
  push_neg at h
  have h1 := h.1
  omega

/-- RayTracer::trace_ray: entry point at depth 0, weight 1, vacuum medium. -/
def RayTracer.trace_ray (rt : RayTracer) (surfaces : List Surf)
    (lights : List Light) (ray : Ray) : Color :=
  rt.trace_ray_recursive surfaces lights ray 0 1 rt.vacuum_material

/-- Fuel-indexed variant of RayTracer::trace_ray_recursive, used to express
that the recursion always completes within `max_depth - depth` further
levels: when the fuel runs out the background color is returned, and the
theorem `trace_ray_fuel_complete` shows this clip is never reached once
fuel ≥ max_depth - depth. -/
def trace_ray_fuel (rt : RayTracer) (surfaces : List Surf) (lights : List Light) :
    ℕ → Ray → ℕ → ℝ → Material → Color
  | 0, _, _, _, _ => rt.background_color
  | fuel + 1, ray, depth, current_weight, passing_material =>
    if depth ≥ rt.max_depth ∨ current_weight < rt.min_weight then
      rt.background_color
    else
      let closest_intersection := rt.find_closest_intersection ray surfaces
      let closest_light := closestLightLoop ray lights none
      let light_hit : Option Color :=
        match closest_light with
        | none => none
        | some (light_intersection, light) =>
          if closest_intersection.elim True (fun i => light_intersection.t < i.t) then
            let distance := light_intersection.t
            let attenuation : Color :=
              ⟨Real.exp (-passing_material.absorption.r * distance),
               Real.exp (-passing_material.absorption.g * distance),
               Real.exp (-passing_material.absorption.b * distance)⟩
            some (light.emission * attenuation * current_weight)
          else none
      match light_hit with
      | some c => c
      | none =>
        match closest_intersection with
        | none => rt.background_color
        | some intersection =>
          let distance := intersection.t
          let attenuation : Color :=
            ⟨Real.exp (-passing_material.absorption.r * distance),
             Real.exp (-passing_material.absorption.g * distance),
             Real.exp (-passing_material.absorption.b * distance)⟩
          let material := intersection.material
          let direct_color := lights.foldl
            (fun acc light => acc + rt.compute_direct_light intersection light material surfaces)
            Color.black
          let branched_rays := rt.branch_rays ray intersection passing_material
          let indirect_color := branched_rays.foldl
            (fun acc branched =>
              acc + (material.albedo *
                trace_ray_fuel rt surfaces lights fuel branched.ray (depth + 1)
                  (current_weight * branched.weight) branched.passing_material) *
                (branched.weight : ℝ))
            Color.black
          (direct_color + indirect_color) * attenuation

/-! Helper lemmas shared by the claim theorems and witnesses. -/

theorem sqrt_eq_of_mul_self {a b : ℝ} (hb : 0 ≤ b) (h : b * b = a) :
    Real.sqrt a = b := by
  rw [← h, Real.sqrt_mul_self hb]

namespace Vec3

theorem length_squared_nonneg (v : Vec3) : 0 ≤ v.length_squared := by
  unfold length_squared dot
  have hx := mul_self_nonneg v.x
  have hy := mul_self_nonneg v.y
  have hz := mul_self_nonneg v.z
  linarith

theorem length_nonneg (v : Vec3) : 0 ≤ v.length := Real.sqrt_nonneg _

theorem mul_self_length (v : Vec3) : v.length * v.length = v.length_squared :=
  Real.mul_self_sqrt v.length_squared_nonneg

theorem length_eq_zero_iff (v : Vec3) : v.length = 0 ↔ v = Vec3.zero := by
  unfold length
  rw [Real.sqrt_eq_zero v.length_squared_nonneg]
  unfold length_squared dot zero
  constructor
  · intro h
    have hx : v.x = 0 ∧ v.y = 0 ∧ v.z = 0 := by
      constructor
      · nlinarith [sq_nonneg v.x, sq_nonneg v.y, sq_nonneg v.z]
      constructor
      · nlinarith [sq_nonneg v.x, sq_nonneg v.y, sq_nonneg v.z]
      · nlinarith [sq_nonneg v.x, sq_nonneg v.y, sq_nonneg v.z]
    cases v
    simp_all
  · intro h
    rw [h]
    norm_num

theorem normalize_of_length_eq_zero {v : Vec3} (h : v.length = 0) :
    v.normalize = v := by
  unfold normalize
  simp [h]

theorem length_div (v : Vec3) (s : ℝ) (hs : 0 < s) :
    (v / s).length = v.length / s := by
  unfold length
  have h1 : (v / s).length_squared = v.length_squared / (s * s) := by
    unfold length_squared dot
    rw [div_def]
    field_simp
  rw [h1, Real.sqrt_div v.length_squared_nonneg, sqrt_eq_of_mul_self hs.le rfl]

theorem normalize_length_one {v : Vec3} (h : v.length ≠ 0) :
    v.normalize.length = 1 := by
  have hpos : 0 < v.length := lt_of_le_of_ne v.length_nonneg (Ne.symm h)
  unfold normalize
  simp only [h, if_false]
  rw [length_div v v.length hpos, div_self h]

theorem normalize_length (v : Vec3) : v.normalize.length = v.length / v.length := by
  by_cases h : v.length = 0
  · rw [normalize_of_length_eq_zero h, h, div_zero]
  · rw [normalize_length_one h, div_self h]

theorem length_smul_pos (v : Vec3) (c : ℝ) (hc : 0 < c) :
    (c * v).length = c * v.length := by
  unfold length
  have h1 : (c * v).length_squared = (c * c) * v.length_squared := by
    unfold length_squared dot
    rw [smul_left_def, smul_def]
    ring
  rw [h1, Real.sqrt_mul (by positivity), sqrt_eq_of_mul_self hc.le rfl]

theorem normalize_smul_pos (v : Vec3) (c : ℝ) (hc : 0 < c) :
    (c * v).normalize = v.normalize := by
  by_cases h : v.length = 0
  · have hv : v = Vec3.zero := (length_eq_zero_iff v).1 h
    subst hv
    have hcz : c * Vec3.zero = Vec3.zero := by
      rw [smul_left_def, smul_def]
      unfold zero
      norm_num
    rw [hcz]
  · have hlen : (c * v).length = c * v.length := length_smul_pos v c hc
    have hne : (c * v).length ≠ 0 := by
      rw [hlen]
      exact mul_ne_zero hc.ne' h
    have hc0 : c ≠ 0 := hc.ne'
    unfold normalize
    simp only [hne, h, if_false]
    rw [hlen]
    simp only [smul_left_def, smul_def, div_def, Vec3.mk.injEq]
    refine ⟨?_, ?_, ?_⟩ <;> field_simp <;> ring

end Vec3

/-! ## Claim theorems -/

/-- Claim C9: Vec3::normalize returns the input unchanged when the length is
exactly zero (the division never happens), and otherwise returns a vector of
length exactly one. -/
theorem normalize_spec (v : Vec3) :
    (v.length = 0 → v.normalize = v) ∧ (v.length ≠ 0 → v.normalize.length = 1) :=
  ⟨fun h => Vec3.normalize_of_length_eq_zero h,
   fun h => Vec3.normalize_length_one h⟩

/-- Witness for C9 at the concrete vector (0, 0, 3): its length is nonzero
and its normalization has length one. -/
theorem normalize_spec_witness :
    Vec3.length (⟨0, 0, 3⟩ : Vec3) ≠ 0 ∧
      (Vec3.normalize (⟨0, 0, 3⟩ : Vec3)).length = 1 := by
  have hlen : Vec3.length (⟨0, 0, 3⟩ : Vec3) = 3 := by
    unfold Vec3.length Vec3.length_squared Vec3.dot
    norm_num
    exact sqrt_eq_of_mul_self (by norm_num) (by norm_num)
  have hne : Vec3.length (⟨0, 0, 3⟩ : Vec3) ≠ 0 := by
    rw [hlen]; norm_num
  exact ⟨hne, (normalize_spec ⟨0, 0, 3⟩).2 hne⟩

/-- Claim C1: on every recursive entry, if depth ≥ max_depth or the current
weight is below min_weight, trace_ray_recursive returns exactly the
background color; and since this holds for arbitrary surface and light
lists, the result is decided before (and independently of) any surface or
light intersection query of that entry. -/
theorem trace_ray_recursive_terminal (rt : RayTracer) (surfaces surfaces2 : List Surf)
    (lights lights2 : List Light) (ray : Ray) (depth : ℕ) (current_weight : ℝ)
    (passing_material : Material)
    (h : depth ≥ rt.max_depth ∨ current_weight < rt.min_weight) :
    rt.trace_ray_recursive surfaces lights ray depth current_weight passing_material =
        rt.background_color ∧
      rt.trace_ray_recursive surfaces lights ray depth current_weight passing_material =
        rt.trace_ray_recursive surfaces2 lights2 ray depth current_weight
          passing_material := by
  have key : ∀ (ss : List Surf) (ls : List Light),
      rt.trace_ray_recursive ss ls ray depth current_weight passing_material =
        rt.background_color := by
    intro ss ls
    rw [RayTracer.trace_ray_recursive]
    exact dif_pos h
  exact ⟨key surfaces lights, (key surfaces lights).trans (key surfaces2 lights2).symm⟩

/-- Witness for C1: a tracer with max_depth 0 returns its background color at
depth 0 for a concrete ray, independent of a nonempty scene. -/
theorem trace_ray_recursive_terminal_witness :
    (0 ≥ (RayTracer.mk ⟨1/2, 1/4, 1/8⟩ 0 (1/1000) Light.dummy_material).max_depth ∨
        (1:ℝ) < (RayTracer.mk ⟨1/2, 1/4, 1/8⟩ 0 (1/1000) Light.dummy_material).min_weight) ∧
      (RayTracer.mk ⟨1/2, 1/4, 1/8⟩ 0 (1/1000) Light.dummy_material).trace_ray_recursive
          [] [] ⟨⟨0, 0, 0⟩, ⟨0, 0, 1⟩⟩ 0 1 Light.dummy_material = ⟨1/2, 1/4, 1/8⟩ := by
  have h : 0 ≥ (RayTracer.mk ⟨1/2, 1/4, 1/8⟩ 0 (1/1000) Light.dummy_material).max_depth ∨
      (1:ℝ) < (RayTracer.mk ⟨1/2, 1/4, 1/8⟩ 0 (1/1000) Light.dummy_material).min_weight :=
    Or.inl (le_refl 0)
  exact ⟨h, (trace_ray_recursive_terminal _ [] [] [] [] ⟨⟨0, 0, 0⟩, ⟨0, 0, 1⟩⟩ 0 1
    Light.dummy_material h).1⟩

theorem foldl_congr_colors {α : Type} (l : List α) (f g : Color → α → Color)
    (b : Color) (h : ∀ acc x, f acc x = g acc x) : l.foldl f b = l.foldl g b := by
  induction l generalizing b with
  | nil => rfl
  | cons hd tl ih => rw [List.foldl_cons, List.foldl_cons, h, ih]

/-- Claim C8: the recursive trace is total and completes within
`max_depth - depth` further recursion levels: the fuel-clipped variant
agrees with trace_ray_recursive as soon as the fuel is at least
`max_depth - depth`, for every scene (arbitrary surface and light lists)
and every min_weight.  Each recursive call strictly increases `depth`, and
the guard stops the recursion once `depth` reaches `max_depth`. -/
theorem trace_ray_fuel_complete (rt : RayTracer) (surfaces : List Surf)
    (lights : List Light) (fuel : ℕ) (ray : Ray) (depth : ℕ)
    (current_weight : ℝ) (passing_material : Material)
    (h : rt.max_depth - depth ≤ fuel) :
    trace_ray_fuel rt surfaces lights fuel ray depth current_weight passing_material =
      rt.trace_ray_recursive surfaces lights ray depth current_weight
        passing_material := by
  induction fuel generalizing ray depth current_weight passing_material with
  | zero =>
    have hd : depth ≥ rt.max_depth := by omega
    rw [trace_ray_fuel, RayTracer.trace_ray_recursive, dif_pos (Or.inl hd)]
  | succ fuel ih =>
    rw [trace_ray_fuel, RayTracer.trace_ray_recursive]
    by_cases hg : depth ≥ rt.max_depth ∨ current_weight < rt.min_weight
    · rw [if_pos hg, dif_pos hg]
    · rw [if_neg hg, dif_neg hg]
      have hd : depth < rt.max_depth := by
        push_neg at hg
        exact hg.1
      have hstep : rt.max_depth - (depth + 1) ≤ fuel := by omega
      rcases hci : rt.find_closest_intersection ray surfaces with _ | i <;>
        rcases hli : closestLightLoop ray lights none with _ | ⟨li, light⟩ <;>
          dsimp only [Option.elim]
      · congr 2
        apply foldl_congr_colors
        intro acc branched
        rw [ih branched.ray (depth + 1) (current_weight * branched.weight)
          branched.passing_material hstep]
      · by_cases hrace : li.t < i.t
        · rw [if_pos hrace]
        · rw [if_neg hrace]
          dsimp only
          congr 2
          apply foldl_congr_colors
          intro acc branched
          rw [ih branched.ray (depth + 1) (current_weight * branched.weight)
            branched.passing_material hstep]

/-- Witness for C8 with fuel 2 = max_depth - depth on a concrete tracer and a
concrete (empty) scene. -/
theorem trace_ray_fuel_complete_witness :
    (RayTracer.mk ⟨0, 0, 0⟩ 2 (1/1000) Light.dummy_material).max_depth - 0 ≤ 2 ∧
      trace_ray_fuel (RayTracer.mk ⟨0, 0, 0⟩ 2 (1/1000) Light.dummy_material) [] [] 2
          ⟨⟨0, 0, 0⟩, ⟨0, 0, 1⟩⟩ 0 1 Light.dummy_material =
        (RayTracer.mk ⟨0, 0, 0⟩ 2 (1/1000) Light.dummy_material).trace_ray_recursive
          [] [] ⟨⟨0, 0, 0⟩, ⟨0, 0, 1⟩⟩ 0 1 Light.dummy_material :=
  ⟨by decide, trace_ray_fuel_complete _ [] [] 2 ⟨⟨0, 0, 0⟩, ⟨0, 0, 1⟩⟩ 0 1
    Light.dummy_material (by decide)⟩

/-- Claim C2: when the termination guard passes and some light intersection
with t > 1e-5 is the closest among the lights and strictly beats the closest
surface intersection (or no surface intersection exists), the trace returns
exactly `light.emission * Beer-attenuation(passing_material, t) * weight`,
short-circuiting every direct-lighting evaluation and every ray branch. -/
theorem trace_ray_light_hit (rt : RayTracer) (surfaces : List Surf)
    (lights : List Light) (ray : Ray) (depth : ℕ) (current_weight : ℝ)
    (passing_material : Material) (li : Intersection) (light : Light)
    (hguard : ¬(depth ≥ rt.max_depth ∨ current_weight < rt.min_weight))
    (hlight : closestLightLoop ray lights none = some (li, light))
    (hcloser : (rt.find_closest_intersection ray surfaces).elim True
      fun i => li.t < i.t) :
    rt.trace_ray_recursive surfaces lights ray depth current_weight
        passing_material =
      light.emission *
        (⟨Real.exp (-passing_material.absorption.r * li.t),
          Real.exp (-passing_material.absorption.g * li.t),
          Real.exp (-passing_material.absorption.b * li.t)⟩ : Color) *
        current_weight := by
  rw [RayTracer.trace_ray_recursive, dif_neg hguard]
  dsimp only
  rw [hlight]
  dsimp only
  rw [if_pos hcloser]

/-- The closest-light loop indeed computes the closest light intersection
with t > 1e-5: the result comes from the accumulator or from a light of the
list, its t exceeds 1e-5 when it comes from the list, and it is minimal
among all qualifying light hits of the list (and no larger than any
accumulated candidate). -/
theorem closestLightLoop_spec (ray : Ray) (lights : List Light) :
    ∀ (acc : Option (Intersection × Light)) (res : Intersection × Light),
      closestLightLoop ray lights acc = some res →
      (acc = some res ∨ (res.2 ∈ lights ∧ res.2.intersect ray = some res.1 ∧
        1e-5 < res.1.t)) ∧
      (∀ l ∈ lights, ∀ i, l.intersect ray = some i → 1e-5 < i.t →
        res.1.t ≤ i.t) ∧
      (∀ p, acc = some p → res.1.t ≤ p.1.t) := by
  induction lights with
  | nil =>
    intro acc res h
    rw [closestLightLoop] at h
    refine ⟨Or.inl h, by simp, ?_⟩
    intro p hp
    rw [h] at hp
    cases hp
    exact le_refl _
  | cons light rest ih =>
    intro acc res h
    rw [closestLightLoop] at h
    rcases hli : light.intersect ray with _ | i
    · rw [hli] at h
      dsimp only at h
      obtain ⟨h1, h2, h3⟩ := ih acc res h
      refine ⟨?_, ?_, h3⟩
      · rcases h1 with h1 | h1
        · exact Or.inl h1
        · exact Or.inr ⟨List.mem_cons_of_mem light h1.1, h1.2⟩
      · intro l hl i2 hint ht
        rcases List.mem_cons.mp hl with hle | hlm
        · subst hle
          rw [hli] at hint
          exact absurd hint (by simp)
        · exact h2 l hlm i2 hint ht
    · rw [hli] at h
      dsimp only at h
      by_cases hcond : 1e-5 < i.t ∧ acc.elim True fun p => i.t < p.1.t
      · rw [if_pos hcond] at h
        obtain ⟨h1, h2, h3⟩ := ih (some (i, light)) res h
        have hres_le_i : res.1.t ≤ i.t := h3 (i, light) rfl
        refine ⟨?_, ?_, ?_⟩
        · rcases h1 with h1 | h1
          · cases h1
            exact Or.inr ⟨List.mem_cons_self light rest, hli, hcond.1⟩
          · exact Or.inr ⟨List.mem_cons_of_mem light h1.1, h1.2⟩
        · intro l hl i2 hint ht
          rcases List.mem_cons.mp hl with hle | hlm
          · subst hle
            rw [hli] at hint
            cases hint
            exact hres_le_i
          · exact h2 l hlm i2 hint ht
        · intro p hp
          subst hp
          have : i.t < p.1.t := hcond.2
          exact le_of_lt (lt_of_le_of_lt hres_le_i this)
      · rw [if_neg hcond] at h
        obtain ⟨h1, h2, h3⟩ := ih acc res h
        refine ⟨?_, ?_, h3⟩
        · rcases h1 with h1 | h1
          · exact Or.inl h1
          · exact Or.inr ⟨List.mem_cons_of_mem light h1.1, h1.2⟩
        · intro l hl i2 hint ht
          rcases List.mem_cons.mp hl with hle | hlm
          · subst hle
            rw [hli] at hint
            cases hint
            rcases hacc : acc with _ | p
            · exfalso
              apply hcond
              rw [hacc]
              exact ⟨ht, trivial⟩
            · have hip : ¬(i.t < p.1.t) := by
                intro hlt
                apply hcond
                rw [hacc]
                exact ⟨ht, hlt⟩
              have := h3 p hacc
              exact le_trans this (not_lt.mp hip)
          · exact h2 l hlm i2 hint ht

/-- The closest-surface loop indeed computes the closest surface
intersection with t > 1e-5, in the same sense as closestLightLoop_spec. -/
theorem findClosestLoop_spec (ray : Ray) (surfaces : List Surf) :
    ∀ (acc : Option Intersection) (res : Intersection),
      findClosestLoop ray surfaces acc = some res →
      (acc = some res ∨ (∃ s ∈ surfaces, s.intersect ray = some res ∧
        1e-5 < res.t)) ∧
      (∀ s ∈ surfaces, ∀ i, s.intersect ray = some i → 1e-5 < i.t →
        res.t ≤ i.t) ∧
      (∀ p, acc = some p → res.t ≤ p.t) := by
  induction surfaces with
  | nil =>
    intro acc res h
    rw [findClosestLoop] at h
    refine ⟨Or.inl h, by simp, ?_⟩
    intro p hp
    rw [h] at hp
    cases hp
    exact le_refl _
  | cons s rest ih =>
    intro acc res h
    rw [findClosestLoop] at h
    rcases hsi : s.intersect ray with _ | i
    · rw [hsi] at h
      dsimp only at h
      obtain ⟨h1, h2, h3⟩ := ih acc res h
      refine ⟨?_, ?_, h3⟩
      · rcases h1 with h1 | h1
        · exact Or.inl h1
        · obtain ⟨s2, hs2, hrest⟩ := h1
          exact Or.inr ⟨s2, List.mem_cons_of_mem s hs2, hrest⟩
      · intro s2 hs2 i2 hint ht
        rcases List.mem_cons.mp hs2 with hse | hsm
        · subst hse
          rw [hsi] at hint
          exact absurd hint (by simp)
        · exact h2 s2 hsm i2 hint ht
    · rw [hsi] at h
      dsimp only at h
      by_cases hcond : 1e-5 < i.t ∧ acc.elim True fun c => i.t < c.t
      · rw [if_pos hcond] at h
        obtain ⟨h1, h2, h3⟩ := ih (some i) res h
        have hres_le_i : res.t ≤ i.t := h3 i rfl
        refine ⟨?_, ?_, ?_⟩
        · rcases h1 with h1 | h1
          · cases h1
            exact Or.inr ⟨s, List.mem_cons_self s rest, hsi, hcond.1⟩
          · obtain ⟨s2, hs2, hrest⟩ := h1
            exact Or.inr ⟨s2, List.mem_cons_of_mem s hs2, hrest⟩
        · intro s2 hs2 i2 hint ht
          rcases List.mem_cons.mp hs2 with hse | hsm
          · subst hse
            rw [hsi] at hint
            cases hint
            exact hres_le_i
          · exact h2 s2 hsm i2 hint ht
        · intro p hp
          subst hp
          exact le_of_lt (lt_of_le_of_lt hres_le_i hcond.2)
      · rw [if_neg hcond] at h
        obtain ⟨h1, h2, h3⟩ := ih acc res h
        refine ⟨?_, ?_, h3⟩
        · rcases h1 with h1 | h1
          · exact Or.inl h1
          · obtain ⟨s2, hs2, hrest⟩ := h1
            exact Or.inr ⟨s2, List.mem_cons_of_mem s hs2, hrest⟩
        · intro s2 hs2 i2 hint ht
          rcases List.mem_cons.mp hs2 with hse | hsm
          · subst hse
            rw [hsi] at hint
            cases hint
            rcases hacc : acc with _ | p
            · exfalso
              apply hcond
              rw [hacc]
              exact ⟨ht, trivial⟩
            · have hip : ¬(i.t < p.t) := by
                intro hlt
                apply hcond
                rw [hacc]
                exact ⟨ht, hlt⟩
              exact le_trans (h3 p hacc) (not_lt.mp hip)
          · exact h2 s2 hsm i2 hint ht

/-- Concrete ray used in witnesses: origin 0, unit direction (0,0,1). -/
def rayW : Ray := ⟨⟨0, 0, 0⟩, ⟨0, 0, 1⟩⟩

/-- Concrete light used in witnesses: a white unit-radius light at (0,0,5). -/
def lightW : Light := ⟨⟨0, 0, 5⟩, 1, Color.white⟩

/-- The intersection of rayW with lightW (t = 4 = distance 5 minus radius 1). -/
def liW : Intersection := ⟨4, ⟨0, 0, 4⟩, ⟨0, 0, -1⟩, Light.dummy_material⟩

/-- Concrete tracer used in witnesses. -/
def rtW : RayTracer := ⟨Color.black, 8, 1/1000, Light.dummy_material⟩

theorem lightW_intersect : lightW.intersect rayW = some liW := by
  have h4 : Real.sqrt (4:ℝ) = 2 := sqrt_eq_of_mul_self (by norm_num) (by norm_num)
  unfold Light.intersect lightW rayW liW Light.normal_at Ray.point_at
    Vec3.normalize Vec3.length Vec3.length_squared
  norm_num [Vec3.sub_def, Vec3.dot, Vec3.add_def, Vec3.smul_def, Vec3.div_def,
    Real.sqrt_one, h4]

theorem closestLightLoop_W :
    closestLightLoop rayW [lightW] none = some (liW, lightW) := by
  have hcond : (1e-5 : ℝ) < liW.t ∧
      (Option.elim (none : Option (Intersection × Light)) True
        fun p => liW.t < p.1.t) :=
    ⟨by norm_num [liW], trivial⟩
  simp only [closestLightLoop, lightW_intersect, if_pos hcond]

/-- Witness for C2: tracing rayW through a scene with no surfaces and the
single light lightW at depth 0, weight 1, absorption-free medium yields the
light emission (1,1,1) exactly. -/
theorem trace_ray_light_hit_witness :
    rtW.trace_ray_recursive [] [lightW] rayW 0 1 Light.dummy_material =
      Color.mk 1 1 1 := by
  have hguard : ¬(0 ≥ rtW.max_depth ∨ (1:ℝ) < rtW.min_weight) := by
    norm_num [rtW]
  have h := trace_ray_light_hit rtW [] [lightW] rayW 0 1 Light.dummy_material
    liW lightW hguard closestLightLoop_W trivial
  rw [h]
  norm_num [liW, lightW, Light.dummy_material, Material.new, Color.white,
    Color.black, Color.mul_eq, Color.smul_eq, Real.exp_zero]

theorem directLightLoop_blocked (shadow_ray : Ray) (dist_to_light : ℝ)
    (result : Color) (surfaces : List Surf)
    (hblock : ∃ s ∈ surfaces, ∃ hit, s.intersect shadow_ray = some hit ∧
      hit.t < dist_to_light - 1e-5) :
    directLightLoop shadow_ray dist_to_light result surfaces = Color.black := by
  induction surfaces with
  | nil => simp at hblock
  | cons s rest ih =>
    obtain ⟨s2, hs2, hit2, hint2, ht2⟩ := hblock
    rw [directLightLoop]
    rcases hsi : s.intersect shadow_ray with _ | hit
    · dsimp only
      rcases List.mem_cons.mp hs2 with hs2e | hs2m
      · subst hs2e
        rw [hsi] at hint2
        exact absurd hint2 (by simp)
      · exact ih ⟨s2, hs2m, hit2, hint2, ht2⟩
    · dsimp only
      by_cases hb : hit.t < dist_to_light - 1e-5
      · rw [if_pos hb]
      · rw [if_neg hb]
        rcases List.mem_cons.mp hs2 with hs2e | hs2m
        · subst hs2e
          rw [hsi] at hint2
          cases hint2
          exact absurd ht2 hb
        · exact ih ⟨s2, hs2m, hit2, hint2, ht2⟩

theorem directLightLoop_unblocked (shadow_ray : Ray) (dist_to_light : ℝ)
    (result : Color) (surfaces : List Surf)
    (hfree : ∀ s ∈ surfaces, ∀ hit, s.intersect shadow_ray = some hit →
      ¬(hit.t < dist_to_light - 1e-5)) :
    directLightLoop shadow_ray dist_to_light result surfaces = result := by
  induction surfaces with
  | nil => rfl
  | cons s rest ih =>
    rw [directLightLoop]
    rcases hsi : s.intersect shadow_ray with _ | hit
    · exact ih fun s2 hs2 hit2 hint2 => hfree s2 (List.mem_cons_of_mem s hs2) hit2 hint2
    · dsimp only
      rw [if_neg (hfree s (List.mem_cons_self s rest) hit hsi)]
      exact ih fun s2 hs2 hit2 hint2 => hfree s2 (List.mem_cons_of_mem s hs2) hit2 hint2

/-- Claim C3: the direct-lighting contribution of one light is black when
the cosine (L . N) is nonpositive; black when some surface intersects the
shadow ray (origin offset 1e-4 along L) at t strictly below the distance to
the light center minus 1e-5 (binary occlusion); and otherwise exactly
albedo * emission * (cos * diffuse_rate). -/
theorem compute_direct_light_spec (rt : RayTracer) (intersection : Intersection)
    (light : Light) (material : Material) (surfaces : List Surf) :
    ((((light.center - intersection.point).normalize).dot intersection.normal ≤ 0) →
      rt.compute_direct_light intersection light material surfaces = Color.black) ∧
    ((0 < ((light.center - intersection.point).normalize).dot intersection.normal) →
      (∃ s ∈ surfaces, ∃ hit,
        s.intersect (Ray.new
          (intersection.point + (light.center - intersection.point).normalize * OFFSET_EPS)
          ((light.center - intersection.point).normalize)) = some hit ∧
        hit.t < (light.center - intersection.point).length - 1e-5) →
      rt.compute_direct_light intersection light material surfaces = Color.black) ∧
    ((0 < ((light.center - intersection.point).normalize).dot intersection.normal) →
      (∀ s ∈ surfaces, ∀ hit,
        s.intersect (Ray.new
          (intersection.point + (light.center - intersection.point).normalize * OFFSET_EPS)
          ((light.center - intersection.point).normalize)) = some hit →
        ¬(hit.t < (light.center - intersection.point).length - 1e-5)) →
      rt.compute_direct_light intersection light material surfaces =
        material.albedo * light.emission *
          ((((light.center - intersection.point).normalize).dot intersection.normal) *
            material.diffuse_rate)) := by
  refine ⟨?_, ?_, ?_⟩
  · intro hcos
    rw [RayTracer.compute_direct_light]
    dsimp only
    rw [if_pos hcos]
  · intro hcos hblock
    rw [RayTracer.compute_direct_light]
    dsimp only
    rw [if_neg (not_le.mpr hcos)]
    exact directLightLoop_blocked _ _ _ _ hblock
  · intro hcos hfree
    rw [RayTracer.compute_direct_light]
    dsimp only
    rw [if_neg (not_le.mpr hcos)]
    exact directLightLoop_unblocked _ _ _ _ hfree

/-- Concrete diffuse material used in witnesses: white albedo, diffuse rate
4/5, no specular or transmission. -/
def matW : Material := Material.new Color.white (4/5) 0 0 1 Color.black

/-- Concrete surface hit used in the direct-lighting witnesses: point at the
origin with upward normal. -/
def iW2 : Intersection := ⟨1, ⟨0, 0, 0⟩, ⟨0, 0, 1⟩, matW⟩

/-- Concrete light above iW2. -/
def light2W : Light := ⟨⟨0, 0, 10⟩, 1, Color.white⟩

theorem to_lightW :
    (light2W.center - iW2.point).normalize = (⟨0, 0, 1⟩ : Vec3) := by
  have h100 : Real.sqrt (100:ℝ) = 10 := sqrt_eq_of_mul_self (by norm_num) (by norm_num)
  unfold light2W iW2 Vec3.normalize Vec3.length Vec3.length_squared
  norm_num [Vec3.sub_def, Vec3.dot, Vec3.div_def, h100]

theorem distW : (light2W.center - iW2.point).length = 10 := by
  have h100 : Real.sqrt (100:ℝ) = 10 := sqrt_eq_of_mul_self (by norm_num) (by norm_num)
  unfold light2W iW2 Vec3.length Vec3.length_squared
  norm_num [Vec3.sub_def, Vec3.dot, h100]

theorem cosW :
    ((light2W.center - iW2.point).normalize).dot iW2.normal = 1 := by
  rw [to_lightW]
  unfold iW2 Vec3.dot
  norm_num

/-- Witness for C3 (unoccluded case): with no surfaces, the hit iW2 facing
light2W receives albedo * emission * cos * diffuse_rate = (4/5, 4/5, 4/5). -/
theorem compute_direct_light_spec_witness :
    (0 < ((light2W.center - iW2.point).normalize).dot iW2.normal) ∧
      rtW.compute_direct_light iW2 light2W matW [] = Color.mk (4/5) (4/5) (4/5) := by
  have hcos : 0 < ((light2W.center - iW2.point).normalize).dot iW2.normal := by
    rw [cosW]
    norm_num
  have h := (compute_direct_light_spec rtW iW2 light2W matW []).2.2 hcos
    (by intro s hs; simp at hs)
  refine ⟨hcos, h.trans ?_⟩
  rw [cosW]
  unfold matW light2W Material.new Color.white Color.black
  norm_num [Color.mul_eq, Color.smul_eq]

theorem findClosestLoop_skip_head (ray : Ray) (s : Surf) (l2 : List Surf)
    (acc : Option Intersection)
    (hs : ∀ i, s.intersect ray = some i → i.t ≤ 1e-5) :
    findClosestLoop ray (s :: l2) acc = findClosestLoop ray l2 acc := by
  rw [findClosestLoop]
  rcases hsi : s.intersect ray with _ | i
  · rfl
  · dsimp only
    rw [if_neg fun hc => (not_lt.mpr (hs i hsi)) hc.1]

theorem findClosestLoop_skip (ray : Ray) (s : Surf) (l1 l2 : List Surf)
    (hs : ∀ i, s.intersect ray = some i → i.t ≤ 1e-5) :
    ∀ acc, findClosestLoop ray (l1 ++ s :: l2) acc =
      findClosestLoop ray (l1 ++ l2) acc := by
  induction l1 with
  | nil => exact fun acc => findClosestLoop_skip_head ray s l2 acc hs
  | cons hd tl ih =>
    intro acc
    rw [List.cons_append, List.cons_append, findClosestLoop, findClosestLoop]
    rcases hsi : hd.intersect ray with _ | i
    · exact ih acc
    · dsimp only
      by_cases hcond : 1e-5 < i.t ∧ acc.elim True fun c => i.t < c.t
      · rw [if_pos hcond, if_pos hcond]
        exact ih (some i)
      · rw [if_neg hcond, if_neg hcond]
        exact ih acc

theorem closestLightLoop_skip_head (ray : Ray) (light : Light) (ll2 : List Light)
    (lacc : Option (Intersection × Light))
    (hl : ∀ i, light.intersect ray = some i → i.t ≤ 1e-5) :
    closestLightLoop ray (light :: ll2) lacc = closestLightLoop ray ll2 lacc := by
  rw [closestLightLoop]
  rcases hli : light.intersect ray with _ | i
  · rfl
  · dsimp only
    rw [if_neg fun hc => (not_lt.mpr (hl i hli)) hc.1]

theorem closestLightLoop_skip (ray : Ray) (light : Light) (ll1 ll2 : List Light)
    (hl : ∀ i, light.intersect ray = some i → i.t ≤ 1e-5) :
    ∀ lacc, closestLightLoop ray (ll1 ++ light :: ll2) lacc =
      closestLightLoop ray (ll1 ++ ll2) lacc := by
  induction ll1 with
  | nil => exact fun lacc => closestLightLoop_skip_head ray light ll2 lacc hl
  | cons hd tl ih =>
    intro lacc
    rw [List.cons_append, List.cons_append, closestLightLoop, closestLightLoop]
    rcases hli : hd.intersect ray with _ | i
    · exact ih lacc
    · dsimp only
      by_cases hcond : 1e-5 < i.t ∧ lacc.elim True fun p => i.t < p.1.t
      · rw [if_pos hcond, if_pos hcond]
        exact ih (some (i, hd))
      · rw [if_neg hcond, if_neg hcond]
        exact ih lacc

/-- Claim C5 (amended): the closest-surface search and the closest-light
search never let an intersection with t ≤ 1e-5 affect their result (a
surface or light all of whose hits have t ≤ 1e-5 can be inserted anywhere
without changing the outcome).  The third query of the claim — the
shadow-ray occlusion test of compute_direct_light — applies no such lower
epsilon on t (see the counterexample); it relies on the 1e-4 shadow-origin
offset instead and accepts any hit with t < dist_to_light - 1e-5. -/
theorem search_epsilon_insensitive (ray : Ray) (s : Surf) (light : Light)
    (l1 l2 : List Surf) (ll1 ll2 : List Light) (acc : Option Intersection)
    (lacc : Option (Intersection × Light))
    (hs : ∀ i, s.intersect ray = some i → i.t ≤ 1e-5)
    (hl : ∀ i, light.intersect ray = some i → i.t ≤ 1e-5) :
    findClosestLoop ray (l1 ++ s :: l2) acc = findClosestLoop ray (l1 ++ l2) acc ∧
      closestLightLoop ray (ll1 ++ light :: ll2) lacc =
        closestLightLoop ray (ll1 ++ ll2) lacc :=
  ⟨findClosestLoop_skip ray s l1 l2 hs acc,
   closestLightLoop_skip ray light ll1 ll2 hl lacc⟩

/-- A degenerate blocking sphere centered exactly at the shadow-ray origin
(0, 0, 1e-4) with radius 1e-6: the shadow ray hits it at t = 1e-6 ≤ 1e-5. -/
def tinyW : Sphere := ⟨⟨0, 0, 1e-4⟩, 1e-6, matW⟩

/-- A degenerate sphere centered at the origin of rayW with radius 1e-6: the
ray hits it at t = 1e-6 ≤ 1e-5. -/
def tiny0W : Sphere := ⟨⟨0, 0, 0⟩, 1e-6, matW⟩

/-- A light strictly behind rayW: no intersection (both roots negative). -/
def lightBehindW : Light := ⟨⟨0, 0, -5⟩, 1, Color.white⟩

theorem shadowRayW_eq :
    Ray.new (iW2.point + (light2W.center - iW2.point).normalize * OFFSET_EPS)
        ((light2W.center - iW2.point).normalize) =
      (⟨⟨0, 0, 1e-4⟩, ⟨0, 0, 1⟩⟩ : Ray) := by
  rw [to_lightW]
  unfold Ray.new iW2 OFFSET_EPS Vec3.normalize Vec3.length Vec3.length_squared
  norm_num [Vec3.add_def, Vec3.smul_def, Vec3.dot, Vec3.div_def, Real.sqrt_one]

theorem tinyW_hit :
    tinyW.intersect (⟨⟨0, 0, 1e-4⟩, ⟨0, 0, 1⟩⟩ : Ray) =
      some ⟨1e-6, ⟨0, 0, 1e-4 + 1e-6⟩, ⟨0, 0, 1⟩, matW⟩ := by
  have h4e : Real.sqrt ((250000000000:ℝ)) = 500000 :=
    sqrt_eq_of_mul_self (by norm_num) (by norm_num)
  have h1e : Real.sqrt ((1000000000000:ℝ)) = 1000000 :=
    sqrt_eq_of_mul_self (by norm_num) (by norm_num)
  unfold Sphere.intersect Sphere.normal_at tinyW Ray.point_at Vec3.normalize
    Vec3.length Vec3.length_squared
  norm_num [Vec3.sub_def, Vec3.dot, Vec3.add_def, Vec3.smul_def, Vec3.div_def,
    h4e, h1e]

theorem tiny0W_hit :
    tiny0W.intersect rayW = some ⟨1e-6, ⟨0, 0, 1e-6⟩, ⟨0, 0, 1⟩, matW⟩ := by
  have h4e : Real.sqrt ((250000000000:ℝ)) = 500000 :=
    sqrt_eq_of_mul_self (by norm_num) (by norm_num)
  have h1e : Real.sqrt ((1000000000000:ℝ)) = 1000000 :=
    sqrt_eq_of_mul_self (by norm_num) (by norm_num)
  unfold Sphere.intersect Sphere.normal_at tiny0W rayW Ray.point_at Vec3.normalize
    Vec3.length Vec3.length_squared
  norm_num [Vec3.sub_def, Vec3.dot, Vec3.add_def, Vec3.smul_def, Vec3.div_def,
    h4e, h1e]

theorem lightBehindW_none : lightBehindW.intersect rayW = none := by
  have h4 : Real.sqrt (4:ℝ) = 2 := sqrt_eq_of_mul_self (by norm_num) (by norm_num)
  unfold Light.intersect lightBehindW rayW Light.normal_at Ray.point_at
    Vec3.normalize Vec3.length Vec3.length_squared
  norm_num [Vec3.sub_def, Vec3.dot, Vec3.add_def, Vec3.smul_def, Vec3.div_def, h4]

theorem cdl_tiny_black :
    rtW.compute_direct_light iW2 light2W matW [Sphere.toSurf tinyW] =
      Color.black := by
  rw [RayTracer.compute_direct_light]
  dsimp only
  rw [cosW, if_neg (by norm_num : ¬((1:ℝ) ≤ 0)), shadowRayW_eq, distW,
    directLightLoop]
  dsimp only [Sphere.toSurf]
  rw [tinyW_hit]
  dsimp only
  rw [if_pos (by norm_num : (1e-6:ℝ) < 10 - 1e-5)]

theorem cdl_empty :
    rtW.compute_direct_light iW2 light2W matW [] = Color.mk (4/5) (4/5) (4/5) := by
  rw [RayTracer.compute_direct_light]
  dsimp only
  rw [cosW, if_neg (by norm_num : ¬((1:ℝ) ≤ 0)), directLightLoop]
  unfold matW light2W Material.new Color.white
  norm_num [Color.mul_eq, Color.smul_eq]

/-- Counterexample to C5 as stated: the shadow-ray occlusion test of
compute_direct_light accepts a hit with t = 1e-6 ≤ 1e-5 — a degenerate
sphere at the shadow-ray origin occludes the light (result black), while
removing it restores the positive contribution (4/5, 4/5, 4/5). -/
theorem shadow_epsilon_counterexample :
    ((Sphere.toSurf tinyW).intersect (Ray.new
        (iW2.point + (light2W.center - iW2.point).normalize * OFFSET_EPS)
        ((light2W.center - iW2.point).normalize)) =
      some ⟨1e-6, ⟨0, 0, 1e-4 + 1e-6⟩, ⟨0, 0, 1⟩, matW⟩) ∧
      ((1e-6 : ℝ) ≤ 1e-5) ∧
      rtW.compute_direct_light iW2 light2W matW [Sphere.toSurf tinyW] =
        Color.black ∧
      rtW.compute_direct_light iW2 light2W matW [] = Color.mk (4/5) (4/5) (4/5) ∧
      Color.mk (4/5) (4/5) (4/5) ≠ Color.black := by
  refine ⟨?_, by norm_num, cdl_tiny_black, cdl_empty, ?_⟩
  · rw [shadowRayW_eq]
    dsimp only [Sphere.toSurf]
    exact tinyW_hit
  · intro h
    have hr := congrArg Color.r h
    norm_num [Color.black] at hr

/-- Witness for the amended C5 at concrete inputs: a sphere hit only at
t = 1e-6 and a light with no positive-t hit, inserted into singleton lists,
leave both searches unchanged. -/
theorem search_epsilon_insensitive_witness :
    (∀ i, (Sphere.toSurf tiny0W).intersect rayW = some i → i.t ≤ 1e-5) ∧
      findClosestLoop rayW [Sphere.toSurf tiny0W] none =
        findClosestLoop rayW [] none ∧
      closestLightLoop rayW [lightBehindW] none = closestLightLoop rayW [] none := by
  have hs : ∀ i, (Sphere.toSurf tiny0W).intersect rayW = some i → i.t ≤ 1e-5 := by
    intro i h
    dsimp only [Sphere.toSurf] at h
    rw [tiny0W_hit] at h
    cases h
    norm_num
  have hl : ∀ i, lightBehindW.intersect rayW = some i → i.t ≤ 1e-5 := by
    intro i h
    rw [lightBehindW_none] at h
    exact absurd h (by simp)
  have h := search_epsilon_insensitive rayW (Sphere.toSurf tiny0W) lightBehindW
    [] [] [] [] none none hs hl
  exact ⟨hs, h.1, h.2⟩

/-- The effective outward normal computed inside RayTracer::branch_rays:
the geometric normal if the ray enters (direction . normal < 0), else its
negation. -/
def branchNormal (ray : Ray) (intersection : Intersection) : Vec3 :=
  if ray.direction.dot intersection.normal < 0 then intersection.normal
  else -intersection.normal

/-- The refraction index ratio computed inside RayTracer::branch_rays
(called `ratio` in the source). -/
def branchEta (rt : RayTracer) (ray : Ray) (intersection : Intersection)
    (incoming_material : Material) : ℝ :=
  if ray.direction.dot intersection.normal < 0 then
    incoming_material.refractive_index / intersection.material.refractive_index
  else
    intersection.material.refractive_index / rt.vacuum_material.refractive_index

/-- The squared sine of the transmitted angle computed inside
RayTracer::branch_rays: ratio^2 * (1 - cos_i^2). -/
def branchSinTSq (rt : RayTracer) (ray : Ray) (intersection : Intersection)
    (incoming_material : Material) : ℝ :=
  branchEta rt ray intersection incoming_material *
    branchEta rt ray intersection incoming_material *
    (1 - -(ray.direction.dot (branchNormal ray intersection)) *
      -(ray.direction.dot (branchNormal ray intersection)))

/-- Claim C4: under total internal reflection (transmission_rate > 1e-5 and
sin^2 of the transmitted angle above 1), branch_rays emits no transmission
branch and folds transmission_rate into the specular branch weight as-is:
the specular branch carries weight specular_rate + transmission_rate with
no clamping or renormalization (so it can exceed 1, see the witness). -/
theorem branch_rays_tir (rt : RayTracer) (ray : Ray) (intersection : Intersection)
    (incoming_material : Material)
    (hs : 0 ≤ intersection.material.specular_rate)
    (htr : 1e-5 < intersection.material.transmission_rate)
    (htir : 1 < branchSinTSq rt ray intersection incoming_material) :
    rt.branch_rays ray intersection incoming_material =
      (if 1e-5 < intersection.material.diffuse_rate then
        [⟨Ray.new (intersection.point + branchNormal ray intersection * OFFSET_EPS)
            (branchNormal ray intersection),
          intersection.material.diffuse_rate, incoming_material⟩]
       else []) ++
      [⟨Ray.new (intersection.point + branchNormal ray intersection * OFFSET_EPS)
          (ray.direction - branchNormal ray intersection *
            (2 * ray.direction.dot (branchNormal ray intersection))),
        intersection.material.specular_rate + intersection.material.transmission_rate,
        incoming_material⟩] := by
  have hT : ¬(1e-5 < intersection.material.transmission_rate ∧
      ¬(1 < branchSinTSq rt ray intersection incoming_material)) :=
    fun hc => hc.2 htir
  have hTIR : 1e-5 < intersection.material.transmission_rate ∧
      1 < branchSinTSq rt ray intersection incoming_material := ⟨htr, htir⟩
  have hW : (1e-5:ℝ) < intersection.material.specular_rate +
      intersection.material.transmission_rate :=
    lt_of_lt_of_le htr (le_add_of_nonneg_left hs)
  unfold branchSinTSq branchEta branchNormal at hT hTIR
  rw [RayTracer.branch_rays]
  dsimp only
  rw [if_neg hT, if_pos hTIR, if_pos hW]
  unfold branchNormal
  rw [List.append_nil]

/-- Material triggering total internal reflection in the C4 witness:
specular and transmission rates 9/10 each, refractive index 2. -/
def mTirW : Material := Material.new Color.white 0 (9/10) (9/10) 2 Color.black

/-- Surface hit for the C4 witness: upward geometric normal; the ray exits
the dense medium. -/
def iTirW : Intersection := ⟨1, ⟨0, 0, 0⟩, ⟨0, 0, 1⟩, mTirW⟩

/-- Grazing exit ray for the C4 witness: unit direction (3/5, 0, 4/5). -/
def rayTirW : Ray := ⟨⟨0, 0, -1⟩, ⟨3/5, 0, 4/5⟩⟩

theorem mTirW_fields :
    mTirW.specular_rate = 9/10 ∧ mTirW.transmission_rate = 9/10 ∧
      mTirW.diffuse_rate = 0 ∧ mTirW.refractive_index = 2 := by
  unfold mTirW Material.new
  norm_num

/-- Witness for C4: at the concrete grazing exit hit, sin^2 = 36/25 > 1 and
the branch list is exactly one specular branch of weight 9/10 + 9/10 = 9/5,
which exceeds 1. -/
theorem branch_rays_tir_witness :
    1 < branchSinTSq rtW rayTirW iTirW Light.dummy_material ∧
      rtW.branch_rays rayTirW iTirW Light.dummy_material =
        [⟨Ray.new (iTirW.point + branchNormal rayTirW iTirW * OFFSET_EPS)
            (rayTirW.direction - branchNormal rayTirW iTirW *
              (2 * rayTirW.direction.dot (branchNormal rayTirW iTirW))),
          iTirW.material.specular_rate + iTirW.material.transmission_rate,
          Light.dummy_material⟩] ∧
      (1 : ℝ) < iTirW.material.specular_rate + iTirW.material.transmission_rate := by
  have hsin : 1 < branchSinTSq rtW rayTirW iTirW Light.dummy_material := by
    unfold branchSinTSq branchEta branchNormal rtW rayTirW iTirW mTirW
      Light.dummy_material Material.new
    norm_num [Vec3.dot, Vec3.neg_def]
  have hs : 0 ≤ iTirW.material.specular_rate := by
    show 0 ≤ mTirW.specular_rate
    rw [mTirW_fields.1]
    norm_num
  have htr : (1e-5:ℝ) < iTirW.material.transmission_rate := by
    show (1e-5:ℝ) < mTirW.transmission_rate
    rw [mTirW_fields.2.1]
    norm_num
  have h := branch_rays_tir rtW rayTirW iTirW Light.dummy_material hs htr hsin
  refine ⟨hsin, ?_, ?_⟩
  · rw [h, if_neg ?_, List.nil_append]
    show ¬((1e-5:ℝ) < mTirW.diffuse_rate)
    rw [mTirW_fields.2.2.1]
    norm_num
  · show (1:ℝ) < mTirW.specular_rate + mTirW.transmission_rate
    rw [mTirW_fields.1, mTirW_fields.2.1]
    norm_num

theorem dot_self_pos (v : Vec3) (h : v ≠ Vec3.zero) : 0 < v.dot v := by
  rcases lt_or_eq_of_le v.length_squared_nonneg with hlt | heq
  · exact hlt
  · exfalso
    apply h
    apply (Vec3.length_eq_zero_iff v).1
    unfold Vec3.length
    rw [← heq, Real.sqrt_zero]

/-- The quadratic coefficient a = d . d of Sphere::intersect. -/
def sphereA (_s : Sphere) (ray : Ray) : ℝ := ray.direction.dot ray.direction

/-- The quadratic coefficient b = 2 (O - C) . d of Sphere::intersect. -/
def sphereB (s : Sphere) (ray : Ray) : ℝ :=
  2 * (ray.origin - s.center).dot ray.direction

/-- The quadratic coefficient c = (O - C) . (O - C) - r^2 of Sphere::intersect. -/
def sphereC (s : Sphere) (ray : Ray) : ℝ :=
  (ray.origin - s.center).dot (ray.origin - s.center) - s.radius * s.radius

/-- The discriminant b^2 - 4ac of Sphere::intersect. -/
def sphereDisc (s : Sphere) (ray : Ray) : ℝ :=
  sphereB s ray * sphereB s ray - 4 * sphereA s ray * sphereC s ray

/-- The root (-b - sqrt disc) / (2a) of Sphere::intersect. -/
def sphereT1 (s : Sphere) (ray : Ray) : ℝ :=
  (-sphereB s ray - Real.sqrt (sphereDisc s ray)) / (2 * sphereA s ray)

/-- The root (-b + sqrt disc) / (2a) of Sphere::intersect. -/
def sphereT2 (s : Sphere) (ray : Ray) : ℝ :=
  (-sphereB s ray + Real.sqrt (sphereDisc s ray)) / (2 * sphereA s ray)

/-- Claim C6: for a nonzero ray direction, Sphere::intersect returns none
when the discriminant is negative or neither root is positive, and
otherwise the intersection at the smaller positive root (t1 ≤ t2 always,
t1 preferred when positive) with outward normal normalize(point - center),
never flipped toward the ray. -/
theorem sphere_intersect_spec (s : Sphere) (ray : Ray)
    (hd : ray.direction ≠ Vec3.zero) :
    (sphereDisc s ray < 0 → s.intersect ray = none) ∧
    (0 ≤ sphereDisc s ray →
      sphereT1 s ray ≤ sphereT2 s ray ∧
      (sphereT1 s ray ≤ 0 → sphereT2 s ray ≤ 0 → s.intersect ray = none) ∧
      (0 < sphereT1 s ray → s.intersect ray =
        some ⟨sphereT1 s ray, ray.point_at (sphereT1 s ray),
          (ray.point_at (sphereT1 s ray) - s.center).normalize, s.material⟩) ∧
      (sphereT1 s ray ≤ 0 → 0 < sphereT2 s ray → s.intersect ray =
        some ⟨sphereT2 s ray, ray.point_at (sphereT2 s ray),
          (ray.point_at (sphereT2 s ray) - s.center).normalize, s.material⟩)) := by
  have ha : 0 < ray.direction.dot ray.direction := dot_self_pos ray.direction hd
  unfold sphereT1 sphereT2 sphereDisc sphereB sphereA sphereC
  refine ⟨?_, fun h0 => ⟨?_, ?_, ?_, ?_⟩⟩
  · intro hdisc
    unfold Sphere.intersect
    dsimp only
    rw [if_pos hdisc]
  · have h2a : 0 < 2 * (ray.direction.dot ray.direction) := by linarith
    rw [div_le_div_iff h2a h2a]
    nlinarith [Real.sqrt_nonneg
      (2 * (ray.origin - s.center).dot ray.direction *
        (2 * (ray.origin - s.center).dot ray.direction) -
        4 * (ray.direction.dot ray.direction) *
          ((ray.origin - s.center).dot (ray.origin - s.center) -
            s.radius * s.radius))]
  · intro ht1 ht2
    unfold Sphere.intersect
    dsimp only
    rw [if_neg (not_lt.mpr h0), if_neg (not_lt.mpr ht1), if_neg (not_lt.mpr ht2)]
  · intro ht1
    unfold Sphere.intersect
    dsimp only
    rw [if_neg (not_lt.mpr h0), if_pos ht1]
    rfl
  · intro ht1 ht2
    unfold Sphere.intersect
    dsimp only
    rw [if_neg (not_lt.mpr h0), if_neg (not_lt.mpr ht1), if_pos ht2]
    rfl

/-- Concrete sphere for the C6 witness: radius 1 at distance 5 straight
ahead of rayW. -/
def sphereW : Sphere := ⟨⟨0, 0, 5⟩, 1, matW⟩

theorem sphereDisc_W : sphereDisc sphereW rayW = 4 := by
  unfold sphereDisc sphereB sphereA sphereC sphereW rayW
  norm_num [Vec3.sub_def, Vec3.dot]

theorem sphereT1_W : sphereT1 sphereW rayW = 4 := by
  have h4 : Real.sqrt (4:ℝ) = 2 := sqrt_eq_of_mul_self (by norm_num) (by norm_num)
  unfold sphereT1
  rw [sphereDisc_W, h4]
  unfold sphereB sphereA sphereW rayW
  norm_num [Vec3.sub_def, Vec3.dot]

/-- Witness for C6: rayW aimed at the center of sphereW (radius 1, distance
5) hits at the smaller positive root t1 = 4 = 5 - 1. -/
theorem sphere_intersect_spec_witness :
    sphereT1 sphereW rayW = 5 - 1 ∧
      sphereW.intersect rayW = some ⟨sphereT1 sphereW rayW,
        rayW.point_at (sphereT1 sphereW rayW),
        (rayW.point_at (sphereT1 sphereW rayW) - sphereW.center).normalize,
        sphereW.material⟩ := by
  have hd : rayW.direction ≠ Vec3.zero := by
    unfold rayW Vec3.zero
    intro h
    have hz := congrArg Vec3.z h
    norm_num at hz
  have ht1 : 0 < sphereT1 sphereW rayW := by
    rw [sphereT1_W]
    norm_num
  have hdisc : 0 ≤ sphereDisc sphereW rayW := by
    rw [sphereDisc_W]
    norm_num
  exact ⟨by rw [sphereT1_W]; norm_num,
    ((sphere_intersect_spec sphereW rayW hd).2 hdisc).2.2.1 ht1⟩

/-- The Moeller-Trumbore determinant edge1 . (d x edge2) of
Triangle::intersect. -/
def triDet (tr : Triangle) (ray : Ray) : ℝ :=
  (tr.v1 - tr.v0).dot (ray.direction.cross (tr.v2 - tr.v0))

/-- The barycentric coordinate u of Triangle::intersect. -/
def triU (tr : Triangle) (ray : Ray) : ℝ :=
  1 / triDet tr ray * ((ray.origin - tr.v0).dot (ray.direction.cross (tr.v2 - tr.v0)))

/-- The barycentric coordinate v of Triangle::intersect. -/
def triV (tr : Triangle) (ray : Ray) : ℝ :=
  1 / triDet tr ray * (ray.direction.dot ((ray.origin - tr.v0).cross (tr.v1 - tr.v0)))

/-- The hit parameter t of Triangle::intersect. -/
def triT (tr : Triangle) (ray : Ray) : ℝ :=
  1 / triDet tr ray * ((tr.v2 - tr.v0).dot ((ray.origin - tr.v0).cross (tr.v1 - tr.v0)))

/-- Claim C7: Triangle::intersect (Moeller-Trumbore) returns none when
|det| < 1e-8, when u is outside [0,1], when v < 0 or u + v > 1, or when
t ≤ 0; otherwise the intersection at t with the fixed face normal
normalize(edge1 x edge2), not flipped toward the ray. -/
theorem triangle_intersect_spec (tr : Triangle) (ray : Ray) :
    (|triDet tr ray| < Triangle.meshEPSILON → tr.intersect ray = none) ∧
    (¬(|triDet tr ray| < Triangle.meshEPSILON) →
      ((triU tr ray < 0 ∨ 1 < triU tr ray) → tr.intersect ray = none) ∧
      (¬(triU tr ray < 0 ∨ 1 < triU tr ray) →
        ((triV tr ray < 0 ∨ 1 < triU tr ray + triV tr ray) →
          tr.intersect ray = none) ∧
        (¬(triV tr ray < 0 ∨ 1 < triU tr ray + triV tr ray) →
          (triT tr ray ≤ 0 → tr.intersect ray = none) ∧
          (0 < triT tr ray → tr.intersect ray =
            some ⟨triT tr ray, ray.point_at (triT tr ray),
              ((tr.v1 - tr.v0).cross (tr.v2 - tr.v0)).normalize,
              tr.material⟩)))) := by
  unfold triT triV triU triDet
  refine ⟨?_, fun hdet => ⟨?_, fun hu => ⟨?_, fun hv => ⟨?_, ?_⟩⟩⟩⟩
  · intro h
    unfold Triangle.intersect
    dsimp only
    rw [if_pos h]
  · intro h
    unfold Triangle.intersect
    dsimp only
    rw [if_neg hdet, if_pos h]
  · intro h
    unfold Triangle.intersect
    dsimp only
    rw [if_neg hdet, if_neg hu, if_pos h]
  · intro h
    unfold Triangle.intersect
    dsimp only
    rw [if_neg hdet, if_neg hu, if_neg hv, if_neg (not_lt.mpr h)]
  · intro h
    unfold Triangle.intersect
    dsimp only
    rw [if_neg hdet, if_neg hu, if_neg hv, if_pos h]
    rfl

/-- Concrete triangle for the C7 witness: a right triangle in the plane
z = 5 containing the point (0,0,5) hit by rayW. -/
def triW : Triangle := ⟨⟨0, 0, 5⟩, ⟨1, 0, 5⟩, ⟨0, 1, 5⟩, matW⟩

theorem triDet_W : triDet triW rayW = -1 := by
  unfold triDet triW rayW
  norm_num [Vec3.sub_def, Vec3.cross, Vec3.dot]

theorem triU_W : triU triW rayW = 0 := by
  unfold triU
  rw [triDet_W]
  unfold triW rayW
  norm_num [Vec3.sub_def, Vec3.cross, Vec3.dot]

theorem triV_W : triV triW rayW = 0 := by
  unfold triV
  rw [triDet_W]
  unfold triW rayW
  norm_num [Vec3.sub_def, Vec3.cross, Vec3.dot]

theorem triT_W : triT triW rayW = 5 := by
  unfold triT
  rw [triDet_W]
  unfold triW rayW
  norm_num [Vec3.sub_def, Vec3.cross, Vec3.dot]

/-- Witness for C7: rayW hits triW at t = 5 with face normal (0,0,1). -/
theorem triangle_intersect_spec_witness :
    ¬(|triDet triW rayW| < Triangle.meshEPSILON) ∧
      triW.intersect rayW = some ⟨5, ⟨0, 0, 5⟩, ⟨0, 0, 1⟩, matW⟩ := by
  have hdet : ¬(|triDet triW rayW| < Triangle.meshEPSILON) := by
    rw [triDet_W]
    unfold Triangle.meshEPSILON
    rw [abs_neg, abs_one]
    norm_num
  have hu : ¬(triU triW rayW < 0 ∨ 1 < triU triW rayW) := by
    rw [triU_W]
    norm_num
  have hv : ¬(triV triW rayW < 0 ∨ 1 < triU triW rayW + triV triW rayW) := by
    rw [triU_W, triV_W]
    norm_num
  have ht : 0 < triT triW rayW := by
    rw [triT_W]
    norm_num
  have h := (((((triangle_intersect_spec triW rayW).2 hdet).2 hu).2 hv).2) ht
  refine ⟨hdet, h.trans ?_⟩
  rw [triT_W]
  unfold triW rayW Ray.point_at Vec3.normalize Vec3.length Vec3.length_squared
  norm_num [Vec3.sub_def, Vec3.cross, Vec3.dot, Vec3.add_def, Vec3.smul_def,
    Vec3.div_def, Real.sqrt_one]

/-- Claim C10: Ray::new stores the normalized direction: it equals
`direction.normalize`, has length one whenever the supplied direction is
nonzero, is invariant under scaling the supplied direction by any positive
constant, and degenerates to the zero vector (length zero) when the supplied
direction is the zero vector. -/
theorem ray_new_direction (o d : Vec3) (c : ℝ) :
    (Ray.new o d).direction = d.normalize ∧
      (d ≠ Vec3.zero → ((Ray.new o d).direction).length = 1) ∧
      (0 < c → (Ray.new o (c * d)).direction = (Ray.new o d).direction) ∧
      (Ray.new o Vec3.zero).direction = Vec3.zero := by
  refine ⟨rfl, ?_, ?_, ?_⟩
  · intro hd
    have h : d.length ≠ 0 := by
      rw [Ne, Vec3.length_eq_zero_iff]
      exact hd
    exact Vec3.normalize_length_one h
  · intro hc
    show (c * d).normalize = d.normalize
    exact Vec3.normalize_smul_pos d c hc
  · show Vec3.normalize Vec3.zero = Vec3.zero
    apply Vec3.normalize_of_length_eq_zero
    rw [Vec3.length_eq_zero_iff]

/-- Witness for C10 at o = 0, d = (0, 0, 3), c = 2. -/
theorem ray_new_direction_witness :
    (0:ℝ) < 2 ∧ (⟨0, 0, 3⟩ : Vec3) ≠ Vec3.zero ∧
      (Ray.new ⟨0, 0, 0⟩ ((2:ℝ) * (⟨0, 0, 3⟩ : Vec3))).direction =
        (Ray.new ⟨0, 0, 0⟩ ⟨0, 0, 3⟩).direction ∧
      ((Ray.new ⟨0, 0, 0⟩ (⟨0, 0, 3⟩ : Vec3)).direction).length = 1 := by
  have hd : (⟨0, 0, 3⟩ : Vec3) ≠ Vec3.zero := by
    unfold Vec3.zero
    intro h
    have := congrArg Vec3.z h
    norm_num at this
  exact ⟨by norm_num, hd,
    (ray_new_direction ⟨0, 0, 0⟩ ⟨0, 0, 3⟩ 2).2.2.1 (by norm_num),
    (ray_new_direction ⟨0, 0, 0⟩ ⟨0, 0, 3⟩ 2).2.1 hd⟩

end RT
